/-
Verification development for the MA-bounce analyzer (src/src/analyzer.py).

The analyzer scans OHLCV candle series for "wick touch" events against moving
averages, simulates forward outcomes to a percentage target, and aggregates
win-rate metrics over a parameter sweep.  Prices are modelled as rationals
(the Python code uses floats; no property below depends on rounding of binary
floats), candle tables as lists, and pandas NaN / Python None as `Option`.
-/
import Mathlib

namespace MAStrategy

/-- One OHLCV candle row.  The `volume` and `datetime` columns of the source
data frame are never read by the analysis code modelled here, so they are
omitted. -/
structure Candle where
  open_ : ℚ
  high : ℚ
  low : ℚ
  close : ℚ
deriving DecidableEq, Repr

/-- The moving-average type tags accepted by `compute_mas` (`ma_types`). -/
inductive MAType where
  | SMA
  | EMA
deriving DecidableEq, Repr

/-- `AnalysisConfig` from src/src/config.py, restricted to the fields read by
`Analyzer`.  `max_lookahead = none` models Python `None` ("to the end of the
series"). -/
structure AnalysisConfig where
  ma_period_min : ℕ
  ma_period_max : ℕ
  ma_types : List MAType
  alpha_wick : ℚ
  n_pre : ℕ
  n_post : ℕ
  target_pct : ℚ
  max_lookahead : Option ℕ
  min_events_for_significance : ℕ
deriving Repr

/-- `Analyzer.is_wick_touch` (analyzer.py lines 54-90).  `ma_value = none`
models a NaN moving-average value (`pd.isna`).  Returns `1` for a bullish
touch, `-1` for a bearish touch, `0` for no touch. -/
def is_wick_touch (alpha_wick : ℚ) (row : Candle) (ma_value : Option ℚ) : Int :=
  match ma_value with
  | none => 0
  | some ma =>
    let candle_size := row.high - row.low
    if candle_size ≤ 0 then 0
    else
      let body_low := min row.open_ row.close
      let body_high := max row.open_ row.close
      let lower_wick := body_low - row.low
      let upper_wick := row.high - body_high
      if (body_low > ma ∧ row.low ≤ ma) ∧ lower_wick ≥ alpha_wick * candle_size then 1
      else if (body_high < ma ∧ row.high ≥ ma) ∧ upper_wick ≥ alpha_wick * candle_size then -1
      else 0

/-- The forward-walk of `Analyzer.analyze_events` (analyzer.py lines 147-176):
candles are consumed in order with the candle counter `k` starting at 1 and the
running adverse maximum `adverse_max` starting at 0.  For each forward candle
the invalidation check runs first, then the target check; only when neither
fires is `adverse_max` updated.  Returns `(reached, time_to_target,
adverse_max)`. -/
def outcome_loop (touch : Int) (close_price target : ℚ) :
    List Candle → ℕ → ℚ → Bool × Option ℕ × ℚ
  | [], _, adverse_max => (false, none, adverse_max)
  | frow :: rest, k, adverse_max =>
    if touch = 1 then
      if frow.low ≤ close_price then (false, none, adverse_max)
      else if frow.high ≥ target then (true, some k, adverse_max)
      else outcome_loop touch close_price target rest (k + 1)
        (max adverse_max ((close_price - frow.low) / close_price))
    else
      if frow.high ≥ close_price then (false, none, adverse_max)
      else if frow.low ≤ target then (true, some k, adverse_max)
      else outcome_loop touch close_price target rest (k + 1)
        (max adverse_max ((frow.high - close_price) / close_price))

/-- One recorded event (the dict appended in analyzer.py lines 178-185; the
`datetime` field, a copy of the row index, is omitted). -/
structure Event where
  idx : ℕ
  type : Int
  reached : Bool
  time_to_target : Option ℕ
  adverse_max : ℚ
deriving DecidableEq, Repr

/-- Touch classification of row `j` of the MA-annotated table, as evaluated by
the isolation loops of `analyze_events` (`self.is_wick_touch(df.iloc[j],
df.iloc[j][ma_col])`). -/
def touch_at (alpha_wick : ℚ) (rows : List (Candle × Option ℚ)) (j : ℕ) : Int :=
  match rows[j]? with
  | none => 0
  | some (c, m) => is_wick_touch alpha_wick c m

/-- The body of the per-index loop of `Analyzer.analyze_events` (analyzer.py
lines 105-185) for index `idx`: returns the event appended for `idx`, or
`none` when the index is skipped (NaN MA, no touch, or not isolated).  `rows`
pairs each candle with its MA-column value. -/
def eventAt (cfg : AnalysisConfig) (rows : List (Candle × Option ℚ)) (idx : ℕ) :
    Option Event :=
  match rows[idx]? with
  | none => none
  | some (row, ma?) =>
    match ma? with
    | none => none
    | some ma_val =>
      let touch := is_wick_touch cfg.alpha_wick row (some ma_val)
      if touch = 0 then none
      else
        let start_pre := idx - cfg.n_pre
        let end_post := min (rows.length - 1) (idx + cfg.n_post)
        let isolated :=
          ((List.range' start_pre (idx - start_pre)).all fun j =>
            touch_at cfg.alpha_wick rows j = 0) &&
          ((List.range' (idx + 1) (end_post + 1 - (idx + 1))).all fun j =>
            touch_at cfg.alpha_wick rows j = 0)
        if !isolated then none
        else
          let close_price := row.close
          let target := close_price * (1 + (touch : ℚ) * cfg.target_pct)
          let lookahead_limit := cfg.max_lookahead.getD (rows.length - idx - 1)
          let fwd := ((rows.map Prod.fst).drop (idx + 1)).take lookahead_limit
          let r := outcome_loop touch close_price target fwd 1 0
          some { idx := idx, type := touch, reached := r.1,
                 time_to_target := r.2.1, adverse_max := r.2.2 }

/-- `Analyzer.analyze_events` (analyzer.py lines 92-187): scan every index of
the MA-annotated table and collect the events of the indices not skipped. -/
def analyze_events (cfg : AnalysisConfig) (rows : List (Candle × Option ℚ)) :
    List Event :=
  (List.range rows.length).filterMap (eventAt cfg rows)

/-- Round-half-even of a rational to an integer, the rounding used by Python's
built-in `round` (idealized to exact arithmetic). -/
def roundHalfEven (q : ℚ) : ℤ :=
  if q - ⌊q⌋ < 1 / 2 then ⌊q⌋
  else if 1 / 2 < q - ⌊q⌋ then ⌊q⌋ + 1
  else if ⌊q⌋ % 2 = 0 then ⌊q⌋ else ⌊q⌋ + 1

/-- Python `round(q, ndigits)`: round-half-even at `ndigits` decimal places. -/
def pyRound (ndigits : ℕ) (q : ℚ) : ℚ :=
  (roundHalfEven (q * 10 ^ ndigits) : ℚ) / 10 ^ ndigits

/-- The dict returned by `Analyzer.calculate_metrics` (analyzer.py lines
196-226).  `none` models both Python `None` and a missing key (the empty-list
branch omits `avg_adverse_max` entirely). -/
structure Metrics where
  total_events : ℕ
  win_rate : ℚ
  wins : ℕ
  losses : ℕ
  avg_time_to_target : Option ℚ
  median_time_to_target : Option ℚ
  avg_adverse_max : Option ℚ
deriving DecidableEq, Repr

/-- Insert into a sorted list (ascending). -/
def insertSorted (x : ℚ) : List ℚ → List ℚ
  | [] => [x]
  | y :: ys => if x ≤ y then x :: y :: ys else y :: insertSorted x ys

/-- Sort a list of rationals ascending (insertion sort). -/
def sortRats (l : List ℚ) : List ℚ := l.foldr insertSorted []

/-- `pandas.Series.median`: middle element of the sorted values, or the mean of
the two middle elements when the count is even; `none` on an empty series. -/
def pyMedian (l : List ℚ) : Option ℚ :=
  if l.length = 0 then none
  else
    let s := sortRats l
    if l.length % 2 = 1 then some (s.getD (l.length / 2) 0)
    else some ((s.getD (l.length / 2 - 1) 0 + s.getD (l.length / 2) 0) / 2)

/-- `Analyzer.calculate_metrics` (analyzer.py lines 189-226).  The guard
`if avg_adverse` of line 225 is Python float truthiness: it maps both `None`
and a mean of `0.0` to `None`. -/
def calculate_metrics (events : List Event) : Metrics :=
  if events.length = 0 then
    { total_events := 0, win_rate := 0, wins := 0, losses := 0,
      avg_time_to_target := none, median_time_to_target := none,
      avg_adverse_max := none }
  else
    let reached := (events.filter (fun e => e.reached)).length
    let not_reached := (events.filter (fun e => !e.reached)).length
    let total := events.length
    let win_rate : ℚ := if total > 0 then (reached : ℚ) / total * 100 else 0
    let times_to_target : List ℚ :=
      ((events.filter (fun e => e.reached)).filterMap (fun e => e.time_to_target)).map
        (fun n => (n : ℚ))
    let avg_time := if times_to_target.length > 0 then
      some (times_to_target.sum / times_to_target.length) else none
    let median_time := if times_to_target.length > 0 then
      pyMedian times_to_target else none
    let avg_adverse := if events.length > 0 then
      some ((events.map (fun e => e.adverse_max)).sum / events.length) else none
    { total_events := total,
      win_rate := pyRound 2 win_rate,
      wins := reached,
      losses := not_reached,
      avg_time_to_target := avg_time,
      median_time_to_target := median_time,
      avg_adverse_max :=
        match avg_adverse with
        | some a => if a = 0 then none else some (pyRound 4 a)
        | none => none }

/-- `df['close'].rolling(window=period).mean()` at position `i` (analyzer.py
line 49): defined once `period` observations are available (`min_periods`
defaults to the window size), i.e. for `period - 1 ≤ i < length`. -/
def rolling_mean (closes : List ℚ) (period : ℕ) (i : ℕ) : Option ℚ :=
  if period ≤ i + 1 ∧ i < closes.length then
    some (((closes.drop (i + 1 - period)).take period).sum / period)
  else none

/-- Tail of `df['close'].ewm(span=period, adjust=False).mean()`: the recurrence
`y = (1 - alpha) * prev + alpha * x`. -/
def ema_rec (alpha : ℚ) (prev : ℚ) : List ℚ → List ℚ
  | [] => []
  | x :: xs => ((1 - alpha) * prev + alpha * x) :: ema_rec alpha ((1 - alpha) * prev + alpha * x) xs

/-- `df['close'].ewm(span=period, adjust=False).mean()` (analyzer.py line 51):
smoothing factor `2 / (span + 1)`, seeded with the first close; every position
is defined. -/
def ema_list (closes : List ℚ) (period : ℕ) : List ℚ :=
  match closes with
  | [] => []
  | x :: xs => x :: ema_rec (2 / ((period : ℚ) + 1)) x xs

/-- The MA column added by `Analyzer.compute_mas` (analyzer.py lines 35-52),
aligned position-by-position with `closes`. -/
def compute_ma_col (closes : List ℚ) (period : ℕ) : MAType → List (Option ℚ)
  | MAType.SMA => (List.range closes.length).map (rolling_mean closes period)
  | MAType.EMA => (ema_list closes period).map some

/-- `df_temp.dropna()` (analyzer.py line 256): only the added MA column can
hold NaN, so this drops exactly the rows whose MA value is undefined. -/
def dropna (rows : List (Candle × Option ℚ)) : List (Candle × Option ℚ) :=
  rows.filter (fun r => r.2.isSome)

/-- One row of the final results table (the dict built in analyzer.py lines
273-279).  Python strings are modelled as `List Char`. -/
structure SummaryRecord where
  symbol : List Char
  timeframe : List Char
  ma_type : MAType
  period : ℕ
  metrics : Metrics
deriving DecidableEq, Repr

/-- The body of the (period, ma_type) loop of `Analyzer.analyze_file`
(analyzer.py lines 253-280): compute the MA column, drop undefined rows, skip
if nothing remains, find events, apply the significance gate, and otherwise
build one summary record. -/
def comboRecord (cfg : AnalysisConfig) (symbol timeframe : List Char)
    (candles : List Candle) (period : ℕ) (ma_type : MAType) : Option SummaryRecord :=
  let df_temp := dropna (candles.zip (compute_ma_col (candles.map (fun c => c.close)) period ma_type))
  if df_temp.length = 0 then none
  else
    let events := analyze_events cfg df_temp
    if events.length < cfg.min_events_for_significance then none
    else some { symbol := symbol, timeframe := timeframe, ma_type := ma_type,
                period := period, metrics := calculate_metrics events }

/-- `Analyzer.analyze_file` (analyzer.py lines 228-288) with the CSV already
loaded as `candles`: empty input returns no results; otherwise every period of
`[ma_period_min, ma_period_max]` is paired with every configured MA type. -/
def analyze_file (cfg : AnalysisConfig) (symbol timeframe : List Char)
    (candles : List Candle) : List SummaryRecord :=
  if candles.length = 0 then []
  else (List.range' cfg.ma_period_min (cfg.ma_period_max + 1 - cfg.ma_period_min)).flatMap
    (fun period => cfg.ma_types.filterMap (comboRecord cfg symbol timeframe candles period))

/-- Value of a list of decimal digits (the successful path of Python `int`). -/
def digits_value (s : List Char) : ℕ :=
  s.foldl (fun a c => 10 * a + (c.toNat - 48)) 0

/-- Python `int(s)` on the strings reachable here: an optional sign followed by
at least one decimal digit parses; anything else raises `ValueError` (`none`).
(Whitespace trimming and underscore separators are not modelled.) -/
def pyInt (s : List Char) : Option ℤ :=
  match s with
  | [] => none
  | c :: cs =>
    if c = '-' then
      if cs ≠ [] ∧ cs.all Char.isDigit then some (-(digits_value cs : ℤ)) else none
    else if c = '+' then
      if cs ≠ [] ∧ cs.all Char.isDigit then some ((digits_value cs : ℤ)) else none
    else if (c :: cs).all Char.isDigit then some ((digits_value (c :: cs) : ℤ)) else none

/-- `Analyzer._parse_timeframe` (analyzer.py lines 346-353): the units are
probed in dict order m, h, d, w; the first unit character contained in the
label is stripped everywhere (`str.replace`) and the remainder passed to
`int`; with no unit character the result is 0.  `none` models the
uncaught `ValueError` of `int`. -/
def parse_timeframe (tf : List Char) : Option ℤ :=
  if tf.contains 'm' then (pyInt (tf.filter (fun c => c ≠ 'm'))).map (fun n => n * 60)
  else if tf.contains 'h' then (pyInt (tf.filter (fun c => c ≠ 'h'))).map (fun n => n * 3600)
  else if tf.contains 'd' then (pyInt (tf.filter (fun c => c ≠ 'd'))).map (fun n => n * 86400)
  else if tf.contains 'w' then (pyInt (tf.filter (fun c => c ≠ 'w'))).map (fun n => n * 604800)
  else some 0

/-- The timeframe filter of `Analyzer.analyze_all_data` (analyzer.py lines
316-319): `some true` when the series is eligible (`tf_seconds <
_parse_timeframe('1d')`), `some false` when skipped, `none` when the parse
raises. -/
def tf_gate (timeframe : List Char) : Option Bool :=
  (parse_timeframe timeframe).map
    (fun s => !decide (s ≥ (parse_timeframe ['1', 'd']).getD 0))

/-- Python `str.split(sep)` for a single-character separator. -/
def pySplit (sep : Char) : List Char → List (List Char)
  | [] => [[]]
  | c :: rest =>
    let r := pySplit sep rest
    if c = sep then [] :: r
    else
      match r with
      | [] => [[c]]
      | h :: t => (c :: h) :: t

/-- The per-file loop of `Analyzer.analyze_all_data` (analyzer.py lines
306-328).  Each file is its stem plus the outcome of the `try` block
(`analyze_file`, including the CSV read): `Except.ok` the returned records or
`Except.error` a raised exception.  Names with fewer than 3 `_`-separated
parts are skipped; the timeframe parse happens OUTSIDE the `try`, so its
`ValueError` aborts the whole sweep (`Except.error ()`); ineligible timeframes
are skipped; a caught exception is logged and the file skipped. -/
def sweep_go : List (List Char × Except (List Char) (List SummaryRecord)) →
    List SummaryRecord → Except Unit (List SummaryRecord)
  | [], acc => Except.ok acc
  | (stem, res) :: rest, acc =>
    let parts := pySplit '_' stem
    if parts.length < 3 then sweep_go rest acc
    else
      match tf_gate (parts.getLastD []) with
      | none => Except.error ()
      | some false => sweep_go rest acc
      | some true =>
        match res with
        | Except.ok file_results => sweep_go rest (acc ++ file_results)
        | Except.error _ => sweep_go rest acc

/-- `Analyzer.analyze_all_data` (analyzer.py lines 290-344) up to the
collection of `all_results` (the subsequent sort and CSV write do not affect
which records are collected). -/
def analyze_all_data (files : List (List Char × Except (List Char) (List SummaryRecord))) :
    Except Unit (List SummaryRecord) :=
  sweep_go files []

/-! Spec-side definitions, written from the words of spec.md to state the
claims; each is compared against the code-derived definitions above. -/

/-- Spec 4.4: the invalidation condition of one forward candle ("for a bullish
event, the forward low retraces to or below `close_i`; for a bearish event,
the forward high retraces to or above `close_i`"). -/
def step_invalidates (touch : Int) (close_price : ℚ) (frow : Candle) : Bool :=
  if touch = 1 then decide (frow.low ≤ close_price) else decide (frow.high ≥ close_price)

/-- Spec 4.4: the target condition of one forward candle ("bullish succeeds if
forward high ≥ target_price; bearish succeeds if forward low ≤ target_price"). -/
def step_hits_target (touch : Int) (target : ℚ) (frow : Candle) : Bool :=
  if touch = 1 then decide (frow.high ≥ target) else decide (frow.low ≤ target)

/-- Spec 4.4: the adverse excursion contributed by one forward candle
(bullish `(close_i - forward_low)/close_i`, bearish
`(forward_high - close_i)/close_i`). -/
def step_adverse (touch : Int) (close_price : ℚ) (frow : Candle) : ℚ :=
  if touch = 1 then (close_price - frow.low) / close_price
  else (frow.high - close_price) / close_price

/-- Scaling all four prices of a candle by a constant (spec 8, scale
invariance). -/
def scaleCandle (k : ℚ) (c : Candle) : Candle :=
  { open_ := k * c.open_, high := k * c.high, low := k * c.low, close := k * c.close }

/-- Spec 6: the timeframe units `{m=60s, h=3600s, d=86400s, w=604800s}`. -/
inductive TFUnit where
  | m
  | h
  | d
  | w
deriving DecidableEq, Repr

/-- The label character of a timeframe unit. -/
def TFUnit.char : TFUnit → Char
  | .m => 'm'
  | .h => 'h'
  | .d => 'd'
  | .w => 'w'

/-- Spec 6: the duration in seconds of a timeframe unit. -/
def TFUnit.secs : TFUnit → ℤ
  | .m => 60
  | .h => 3600
  | .d => 86400
  | .w => 604800

/-! Helper lemmas. -/

/-- A contiguous slice of a list, written as a map over offsets. -/
lemma drop_take_eq_map_range (l : List ℚ) :
    ∀ (n s : ℕ), s + n ≤ l.length →
      (l.drop s).take n = (List.range n).map (fun j => l.getD (s + j) 0) := by
  intro n
  induction n with
  | zero => intro s _; simp
  | succ n ih =>
    intro s hs
    have hslt : s < l.length := by omega
    have htail : (l.drop (s + 1)).take n = (List.range n).map (fun j => l.getD (s + 1 + j) 0) :=
      ih (s + 1) (by omega)
    rw [List.drop_eq_getElem_cons hslt, List.take_succ_cons, List.range_succ_eq_map,
      List.map_cons, List.map_map, htail]
    congr 1
    · rw [List.getD_eq_getElem?_getD]
      show l[s] = l[s]?.getD 0
      rw [List.getElem?_eq_getElem hslt]
      rfl
    · apply List.map_congr_left
      intro j _
      simp only [Function.comp]
      congr 1
      omega

lemma is_wick_touch_flat (alpha : ℚ) (c : Candle) (m : Option ℚ)
    (h : c.high - c.low = 0) : is_wick_touch alpha c m = 0 := by
  cases m with
  | none => rfl
  | some v => simp [is_wick_touch, h]

/-! Claim theorems. -/

/-- C5: for every closing-price sequence and positive period `P`, the simple
moving average at a position `i ≥ P-1` of the series equals the arithmetic
mean of the closes at positions `[i-P+1, i]`, and at every position
`i < P-1` it is undefined. -/
theorem rolling_mean_spec (closes : List ℚ) (period i : ℕ) (hp : 0 < period) :
    (period - 1 ≤ i → i < closes.length →
      rolling_mean closes period i =
        some ((((List.range period).map
          (fun j => closes.getD (i + 1 - period + j) 0)).sum) / period)) ∧
    (i < period - 1 → rolling_mean closes period i = none) := by
  constructor
  · intro h1 h2
    have hcond : period ≤ i + 1 ∧ i < closes.length := ⟨by omega, h2⟩
    rw [rolling_mean, if_pos hcond,
      drop_take_eq_map_range closes period (i + 1 - period) (by omega)]
  · intro h
    rw [rolling_mean, if_neg]
    intro hc
    omega

/-- Witness for C5 at `closes = [1, 2, 3]`, `period = 2`, `i = 1`. -/
theorem rolling_mean_spec_witness :
    rolling_mean [1, 2, 3] 2 1 =
      some ((((List.range 2).map (fun j => [(1 : ℚ), 2, 3].getD (1 + 1 - 2 + j) 0)).sum) / 2) :=
  (rolling_mean_spec [1, 2, 3] 2 1 (by decide)).1 (by decide) (by decide)

/-- C7: the Touch Classifier returns no-touch whenever the MA value is
undefined or the candle range `high - low` is zero; consequently any series of
candles of zero range — in particular a flat series — produces zero events,
whatever the MA column holds (so for every period and MA type). -/
theorem no_touch_degenerate :
    (∀ (alpha : ℚ) (c : Candle) (m : Option ℚ),
      m = none ∨ c.high - c.low = 0 → is_wick_touch alpha c m = 0) ∧
    (∀ (cfg : AnalysisConfig) (rows : List (Candle × Option ℚ)),
      (∀ r ∈ rows, r.1.high - r.1.low = 0) → analyze_events cfg rows = []) := by
  constructor
  · rintro alpha c m (rfl | h)
    · rfl
    · exact is_wick_touch_flat alpha c m h
  · intro cfg rows hflat
    rw [analyze_events, List.filterMap_eq_nil_iff]
    intro idx hidx
    have hlt : idx < rows.length := List.mem_range.mp hidx
    have hsome : rows[idx]? = some rows[idx] := List.getElem?_eq_getElem hlt
    have hmem : rows[idx] ∈ rows := List.getElem_mem hlt
    have htouch : ∀ m', is_wick_touch cfg.alpha_wick rows[idx].1 m' = 0 :=
      fun m' => is_wick_touch_flat _ _ _ (hflat _ hmem)
    rw [eventAt, hsome]
    rcases hcm : rows[idx] with ⟨c, m⟩
    cases m with
    | none => rfl
    | some v =>
      have : is_wick_touch cfg.alpha_wick c (some v) = 0 := by
        have := htouch (some v)
        rwa [hcm] at this
      simp [this]

/-- Witness for C7: a no-touch on an undefined MA, and zero events on a flat
two-candle series carrying an arbitrary MA column. -/
theorem no_touch_degenerate_witness :
    is_wick_touch (3 / 10) ⟨1, 2, 1, 2⟩ none = 0 ∧
    analyze_events ⟨5, 233, [MAType.SMA, MAType.EMA], 3 / 10, 5, 5, 3 / 100, some 200, 10⟩
      [(⟨5, 5, 5, 5⟩, some 5), (⟨5, 5, 5, 5⟩, none)] = [] :=
  ⟨no_touch_degenerate.1 (3 / 10) ⟨1, 2, 1, 2⟩ none (Or.inl rfl),
   no_touch_degenerate.2 _ _ (by simp)⟩

/-- C10: a timeframe label containing none of the unit characters m, h, d, w
parses to 0 seconds, and the sweep's timeframe filter therefore treats the
series as shorter than one day and processes it rather than skipping it. -/
theorem parse_timeframe_no_unit (tf : List Char)
    (hm : tf.contains 'm' = false) (hh : tf.contains 'h' = false)
    (hd : tf.contains 'd' = false) (hw : tf.contains 'w' = false) :
    parse_timeframe tf = some 0 ∧ tf_gate tf = some true := by
  have hparse : parse_timeframe tf = some 0 := by
    rw [parse_timeframe, hm, hh, hd, hw]
    rfl
  refine ⟨hparse, ?_⟩
  rw [tf_gate, hparse]
  rfl

/-- Witness for C10 at the unit-less label "foo". -/
theorem parse_timeframe_no_unit_witness :
    parse_timeframe ['f', 'o', 'o'] = some 0 ∧ tf_gate ['f', 'o', 'o'] = some true :=
  parse_timeframe_no_unit ['f', 'o', 'o'] (by decide) (by decide) (by decide) (by decide)

/-- C1: within each forward candle of the Outcome Simulator the invalidation
check strictly precedes the target check — an invalidating candle ends the
event as failed with the accumulated adverse maximum unchanged, even when it
also reaches the target — a candle hitting the target (without invalidating)
ends it as succeeded, again without folding in its own excursion; and the
final adverse maximum is exactly the fold of the per-candle excursions over
the prefix of forward candles on which neither check triggers. -/
theorem outcome_loop_order (touch : Int) (close_price target : ℚ) (k : ℕ) (adverse_max : ℚ) :
    (∀ (frow : Candle) (rest : List Candle),
      step_invalidates touch close_price frow = true →
      outcome_loop touch close_price target (frow :: rest) k adverse_max =
        (false, none, adverse_max)) ∧
    (∀ (frow : Candle) (rest : List Candle),
      step_invalidates touch close_price frow = false →
      step_hits_target touch target frow = true →
      outcome_loop touch close_price target (frow :: rest) k adverse_max =
        (true, some k, adverse_max)) ∧
    (∀ (fwd : List Candle) (k' : ℕ),
      (outcome_loop touch close_price target fwd k' adverse_max).2.2 =
        ((fwd.takeWhile (fun f => !step_invalidates touch close_price f &&
            !step_hits_target touch target f)).map
          (step_adverse touch close_price)).foldl max adverse_max) := by
  refine ⟨?_, ?_, ?_⟩
  · intro frow rest hinv
    rw [step_invalidates] at hinv
    by_cases ht : touch = 1
    · rw [if_pos ht] at hinv
      simp only [outcome_loop]
      rw [if_pos ht, if_pos (of_decide_eq_true hinv)]
    · rw [if_neg ht] at hinv
      simp only [outcome_loop]
      rw [if_neg ht, if_pos (of_decide_eq_true hinv)]
  · intro frow rest hinv htgt
    rw [step_invalidates] at hinv
    rw [step_hits_target] at htgt
    by_cases ht : touch = 1
    · rw [if_pos ht] at hinv htgt
      simp only [outcome_loop]
      rw [if_pos ht, if_neg (of_decide_eq_false hinv), if_pos (of_decide_eq_true htgt)]
    · rw [if_neg ht] at hinv htgt
      simp only [outcome_loop]
      rw [if_neg ht, if_neg (of_decide_eq_false hinv), if_pos (of_decide_eq_true htgt)]
  · intro fwd
    induction fwd generalizing adverse_max with
    | nil => intro k'; simp [outcome_loop]
    | cons f rest ih =>
      intro k'
      by_cases hinv : step_invalidates touch close_price f = true
      · have h1 : (f :: rest).takeWhile (fun g => !step_invalidates touch close_price g &&
            !step_hits_target touch target g) = [] := by
          simp [List.takeWhile_cons, hinv]
        rw [h1]
        rw [step_invalidates] at hinv
        by_cases ht : touch = 1
        · rw [if_pos ht] at hinv
          simp only [outcome_loop]
          rw [if_pos ht, if_pos (of_decide_eq_true hinv)]
          rfl
        · rw [if_neg ht] at hinv
          simp only [outcome_loop]
          rw [if_neg ht, if_pos (of_decide_eq_true hinv)]
          rfl
      · rw [Bool.not_eq_true] at hinv
        by_cases htgt : step_hits_target touch target f = true
        · have h1 : (f :: rest).takeWhile (fun g => !step_invalidates touch close_price g &&
              !step_hits_target touch target g) = [] := by
            simp [List.takeWhile_cons, hinv, htgt]
          rw [h1]
          rw [step_invalidates] at hinv
          rw [step_hits_target] at htgt
          by_cases ht : touch = 1
          · rw [if_pos ht] at hinv htgt
            simp only [outcome_loop]
            rw [if_pos ht, if_neg (of_decide_eq_false hinv), if_pos (of_decide_eq_true htgt)]
            rfl
          · rw [if_neg ht] at hinv htgt
            simp only [outcome_loop]
            rw [if_neg ht, if_neg (of_decide_eq_false hinv), if_pos (of_decide_eq_true htgt)]
            rfl
        · rw [Bool.not_eq_true] at htgt
          have h1 : (f :: rest).takeWhile (fun g => !step_invalidates touch close_price g &&
              !step_hits_target touch target g) =
              f :: rest.takeWhile (fun g => !step_invalidates touch close_price g &&
                !step_hits_target touch target g) := by
            simp [List.takeWhile_cons, hinv, htgt]
          rw [h1, List.map_cons, List.foldl_cons]
          have hstep : outcome_loop touch close_price target (f :: rest) k' adverse_max =
              outcome_loop touch close_price target rest (k' + 1)
                (max adverse_max (step_adverse touch close_price f)) := by
            rw [step_invalidates] at hinv
            rw [step_hits_target] at htgt
            rw [step_adverse]
            by_cases ht : touch = 1
            · rw [if_pos ht] at hinv htgt ⊢
              simp only [outcome_loop]
              rw [if_neg (of_decide_eq_false hinv), if_neg (of_decide_eq_false htgt), if_pos ht]
            · rw [if_neg ht] at hinv htgt ⊢
              simp only [outcome_loop]
              rw [if_neg (of_decide_eq_false hinv), if_neg (of_decide_eq_false htgt), if_neg ht]
          rw [hstep]
          exact ih (max adverse_max (step_adverse touch close_price f)) (k' + 1)

/-- Witness for C1: a bullish event whose first forward candle both retraces
to entry (low 99 ≤ 100) and reaches the target (high 104 ≥ 103) is recorded
as failed with the adverse maximum untouched. -/
theorem outcome_loop_order_witness :
    outcome_loop 1 100 103 [⟨102, 104, 99, 103⟩] 1 0 = (false, none, 0) :=
  (outcome_loop_order 1 100 103 1 0).1 ⟨102, 104, 99, 103⟩ [] (by decide)

/-- C6: the touch classification is invariant under scaling all of
{open, high, low, close, average} by the same positive constant. -/
theorem is_wick_touch_scale_invariant (alpha : ℚ) (x : Candle) (ma : Option ℚ)
    (c : ℚ) (hc : 0 < c) :
    is_wick_touch alpha (scaleCandle c x) (ma.map (fun v => c * v)) =
      is_wick_touch alpha x ma := by
  cases ma with
  | none => rfl
  | some v =>
    have hc' : (0 : ℚ) ≤ c := hc.le
    have hmin : min (c * x.open_) (c * x.close) = c * min x.open_ x.close :=
      ((monotone_mul_left_of_nonneg hc').map_min).symm
    have hmax : max (c * x.open_) (c * x.close) = c * max x.open_ x.close :=
      ((monotone_mul_left_of_nonneg hc').map_max).symm
    have e1 : (c * x.high - c * x.low ≤ 0) ↔ (x.high - x.low ≤ 0) := by
      rw [← mul_sub]
      constructor
      · intro h
        by_contra hn
        push_neg at hn
        nlinarith
      · intro h
        nlinarith
    have e2 : (c * v < c * min x.open_ x.close) ↔ (v < min x.open_ x.close) :=
      mul_lt_mul_left hc
    have e3 : (c * x.low ≤ c * v) ↔ (x.low ≤ v) := mul_le_mul_left hc
    have e4 : (alpha * (c * x.high - c * x.low) ≤ c * min x.open_ x.close - c * x.low) ↔
        (alpha * (x.high - x.low) ≤ min x.open_ x.close - x.low) := by
      rw [← mul_sub c, ← mul_sub c, mul_left_comm]
      exact mul_le_mul_left hc
    have e5 : (c * max x.open_ x.close < c * v) ↔ (max x.open_ x.close < v) :=
      mul_lt_mul_left hc
    have e6 : (c * v ≤ c * x.high) ↔ (v ≤ x.high) := mul_le_mul_left hc
    have e7 : (alpha * (c * x.high - c * x.low) ≤ c * x.high - c * max x.open_ x.close) ↔
        (alpha * (x.high - x.low) ≤ x.high - max x.open_ x.close) := by
      rw [← mul_sub c, ← mul_sub c, mul_left_comm]
      exact mul_le_mul_left hc
    simp only [is_wick_touch, scaleCandle, Option.map_some']
    simp only [ge_iff_le, gt_iff_lt, hmin, hmax]
    simp only [e1, e2, e3, e4, e5, e6, e7]

/-- Witness for C6: scaling a bullish-touch candle and its average by 2
preserves the classification. -/
theorem is_wick_touch_scale_invariant_witness :
    is_wick_touch (3 / 10) (scaleCandle 2 ⟨98, 99, 96, 99⟩)
      ((some (193 / 2)).map (fun v => 2 * v)) =
      is_wick_touch (3 / 10) ⟨98, 99, 96, 99⟩ (some (193 / 2)) :=
  is_wick_touch_scale_invariant (3 / 10) ⟨98, 99, 96, 99⟩ (some (193 / 2)) 2 (by decide)

lemma roundHalfEven_nonneg (q : ℚ) (h : 0 ≤ q) : 0 ≤ roundHalfEven q := by
  have h0 : 0 ≤ ⌊q⌋ := Int.floor_nonneg.mpr h
  unfold roundHalfEven
  split_ifs <;> omega

lemma roundHalfEven_le (q : ℚ) (M : ℤ) (h : q ≤ M) : roundHalfEven q ≤ M := by
  have hf : ⌊q⌋ ≤ M := by
    have := Int.floor_le_floor h
    rwa [Int.floor_intCast] at this
  have key : ¬(q - ⌊q⌋ < 1 / 2) → ⌊q⌋ + 1 ≤ M := by
    intro h1
    push_neg at h1
    have hq : (⌊q⌋ : ℚ) < q := by linarith
    have hM : ⌊q⌋ < M := by
      by_contra hx
      push_neg at hx
      have hcast : (M : ℚ) ≤ (⌊q⌋ : ℚ) := by exact_mod_cast hx
      linarith
    omega
  unfold roundHalfEven
  split_ifs with h1 h2 h3
  · exact hf
  · exact key h1
  · exact hf
  · exact key h1

lemma length_filter_add_length_filter_not {α : Type} (l : List α) (p : α → Bool) :
    (l.filter p).length + (l.filter (fun a => !p a)).length = l.length := by
  induction l with
  | nil => rfl
  | cons x xs ih =>
    cases hx : p x <;> simp [List.filter_cons, hx] <;> omega

lemma pyRound_two_bounds (q : ℚ) (h0 : 0 ≤ q) (h1 : q ≤ 100) :
    0 ≤ pyRound 2 q ∧ pyRound 2 q ≤ 100 := by
  unfold pyRound
  constructor
  · apply div_nonneg
    · exact_mod_cast roundHalfEven_nonneg _ (by positivity)
    · positivity
  · rw [div_le_iff₀ (by positivity)]
    have hle : roundHalfEven (q * 10 ^ 2) ≤ (10000 : ℤ) := by
      apply roundHalfEven_le
      push_cast
      nlinarith
    calc ((roundHalfEven (q * 10 ^ 2) : ℤ) : ℚ) ≤ ((10000 : ℤ) : ℚ) := by exact_mod_cast hle
      _ = 100 * 10 ^ 2 := by norm_num

/-- C8: for every event list, wins and losses partition the events, and the
win rate is `100 × wins / total_events` rounded to 2 decimal places (0 for an
empty list), which always lies in [0, 100]. -/
theorem calculate_metrics_invariants (events : List Event) :
    (calculate_metrics events).wins + (calculate_metrics events).losses =
      (calculate_metrics events).total_events ∧
    (calculate_metrics events).win_rate =
      (if events.length = 0 then 0
       else pyRound 2 (100 * ((events.filter (fun e => e.reached)).length : ℚ) /
         events.length)) ∧
    0 ≤ (calculate_metrics events).win_rate ∧
    (calculate_metrics events).win_rate ≤ 100 := by
  by_cases hlen : events.length = 0
  · have hnil : events = [] := List.length_eq_zero.mp hlen
    subst hnil
    exact ⟨rfl, by simp [calculate_metrics], by norm_num [calculate_metrics],
      by norm_num [calculate_metrics]⟩
  · have h0 : 0 < events.length := Nat.pos_of_ne_zero hlen
    have hwr : (calculate_metrics events).win_rate =
        pyRound 2 (((events.filter (fun e => e.reached)).length : ℚ) /
          events.length * 100) := by
      simp only [calculate_metrics, if_neg hlen, gt_iff_lt, if_pos h0]
    have hval : ((events.filter (fun e => e.reached)).length : ℚ) /
        events.length * 100 =
        100 * ((events.filter (fun e => e.reached)).length : ℚ) / events.length := by
      ring
    have hbnd0 : (0 : ℚ) ≤ ((events.filter (fun e => e.reached)).length : ℚ) /
        events.length * 100 := by positivity
    have hbnd1 : ((events.filter (fun e => e.reached)).length : ℚ) /
        events.length * 100 ≤ 100 := by
      have hfl : ((events.filter (fun e => e.reached)).length : ℚ) /
          events.length ≤ 1 := by
        rw [div_le_one (by exact_mod_cast h0)]
        exact_mod_cast List.length_filter_le _ _
      nlinarith
    have hbounds := pyRound_two_bounds _ hbnd0 hbnd1
    refine ⟨?_, ?_, ?_, ?_⟩
    · simp only [calculate_metrics, if_neg hlen]
      exact length_filter_add_length_filter_not events _
    · rw [hwr, if_neg hlen, hval]
    · rw [hwr]; exact hbounds.1
    · rw [hwr]; exact hbounds.2

/-- C2 (amended): for a non-empty event list the reported average adverse
excursion equals the mean of `adverse_max` rounded to 4 decimal places
whenever that mean is nonzero; it is absent both when the event list is empty
and — through Python float truthiness — when the mean equals 0. -/
theorem calculate_metrics_avg_adverse (events : List Event) (hne : events ≠ []) :
    ((events.map (fun e => e.adverse_max)).sum / events.length = 0 →
      (calculate_metrics events).avg_adverse_max = none) ∧
    ((events.map (fun e => e.adverse_max)).sum / events.length ≠ 0 →
      (calculate_metrics events).avg_adverse_max =
        some (pyRound 4 ((events.map (fun e => e.adverse_max)).sum / events.length))) := by
  have hlen : events.length ≠ 0 := fun h => hne (List.length_eq_zero.mp h)
  have h0 : 0 < events.length := Nat.pos_of_ne_zero hlen
  constructor
  · intro hm
    simp only [calculate_metrics, if_neg hlen, gt_iff_lt, if_pos h0]
    rw [if_pos hm]
  · intro hm
    simp only [calculate_metrics, if_neg hlen, gt_iff_lt, if_pos h0]
    rw [if_neg hm]

/-- Witness for C2 (amended) at a single event with adverse excursion 1. -/
theorem calculate_metrics_avg_adverse_witness :
    (calculate_metrics [(⟨0, 1, true, some 1, 1⟩ : Event)]).avg_adverse_max =
      some (pyRound 4 (([(⟨0, 1, true, some 1, 1⟩ : Event)].map
        (fun e => e.adverse_max)).sum / [(⟨0, 1, true, some 1, 1⟩ : Event)].length)) :=
  (calculate_metrics_avg_adverse _ (by simp)).2 (by simp)

/-- Counterexample for C2 as stated: a single event whose adverse excursion is
0 gives a non-empty event list whose reported average adverse excursion is
absent, so absence is not limited to the empty list. -/
theorem calculate_metrics_avg_adverse_cex :
    (calculate_metrics [(⟨0, 1, true, some 1, 0⟩ : Event)]).avg_adverse_max = none ∧
    [(⟨0, 1, true, some 1, 0⟩ : Event)] ≠ [] := by
  constructor
  · simp [calculate_metrics]
  · simp

lemma contains_true_iff (l : List Char) (c : Char) : l.contains c = true ↔ c ∈ l :=
  List.elem_iff

lemma contains_false_of_not_mem (l : List Char) (c : Char) (h : c ∉ l) :
    l.contains c = false := by
  rw [← Bool.not_eq_true, contains_true_iff]
  exact h

lemma digits_not_mem (s : List Char) (hdig : ∀ c ∈ s, c.isDigit = true)
    (x : Char) (hx : x.isDigit = false) : x ∉ s := by
  intro hmem
  rw [hdig x hmem] at hx
  exact absurd hx (by decide)

lemma filter_unit_append (s : List Char) (uc : Char)
    (hne : ∀ c ∈ s, c ≠ uc) :
    (s ++ [uc]).filter (fun c => c ≠ uc) = s := by
  rw [List.filter_append]
  have h1 : s.filter (fun c => c ≠ uc) = s :=
    List.filter_eq_self.mpr (fun a ha => decide_eq_true (hne a ha))
  have h2 : [uc].filter (fun c => c ≠ uc) = [] := by simp
  rw [h1, h2, List.append_nil]

lemma pyInt_digits (s : List Char) (hne : s ≠ []) (hdig : ∀ c ∈ s, c.isDigit = true) :
    pyInt s = some ((digits_value s : ℤ)) := by
  obtain ⟨c, cs, rfl⟩ := List.exists_cons_of_ne_nil hne
  have hc : c.isDigit = true := hdig c (List.mem_cons_self c cs)
  have hcm : ¬(c = '-') := by
    intro h
    subst h
    exact absurd hc (by decide)
  have hcp : ¬(c = '+') := by
    intro h
    subst h
    exact absurd hc (by decide)
  have hall : (c :: cs).all Char.isDigit = true := List.all_eq_true.mpr hdig
  simp only [pyInt]
  rw [if_neg hcm, if_neg hcp, if_pos hall]

lemma ne_true_of_eq_false {b : Bool} (h : b = false) : ¬(b = true) := by
  rw [h]
  exact Bool.false_ne_true

lemma contains_unit_append_self (s : List Char) (uc : Char) :
    (s ++ [uc]).contains uc = true :=
  (contains_true_iff _ _).mpr (List.mem_append_right _ (List.mem_singleton.mpr rfl))

lemma contains_unit_append_other (s : List Char) (uc x : Char) (hx : x ∉ s)
    (hne : x ≠ uc) : (s ++ [uc]).contains x = false := by
  apply contains_false_of_not_mem
  intro hmem
  rcases List.mem_append.mp hmem with h1 | h1
  · exact hx h1
  · rw [List.mem_singleton] at h1
    exact hne h1

/-- C3: a well-formed magnitude+unit timeframe label parses to
`magnitude × unit-seconds`, and the sweep's timeframe filter accepts the
series exactly when that duration is strictly less than 86400 seconds
(one day). -/
theorem parse_timeframe_wellformed (s : List Char) (u : TFUnit)
    (hne : s ≠ []) (hdig : ∀ c ∈ s, c.isDigit = true) :
    parse_timeframe (s ++ [u.char]) = some ((digits_value s : ℤ) * u.secs) ∧
    tf_gate (s ++ [u.char]) = some (decide ((digits_value s : ℤ) * u.secs < 86400)) := by
  have hm : ('m' : Char) ∉ s := digits_not_mem s hdig 'm' (by decide)
  have hh : ('h' : Char) ∉ s := digits_not_mem s hdig 'h' (by decide)
  have hd : ('d' : Char) ∉ s := digits_not_mem s hdig 'd' (by decide)
  have hw : ('w' : Char) ∉ s := digits_not_mem s hdig 'w' (by decide)
  have hint : pyInt s = some ((digits_value s : ℤ)) := pyInt_digits s hne hdig
  have hparse : parse_timeframe (s ++ [u.char]) = some ((digits_value s : ℤ) * u.secs) := by
    cases u with
    | m =>
      have hfil : (s ++ ['m']).filter (fun c => c ≠ 'm') = s :=
        filter_unit_append s 'm' (fun c hc heq => hm (heq ▸ hc))
      simp only [parse_timeframe, TFUnit.char]
      rw [if_pos (contains_unit_append_self s 'm'), hfil, hint]
      rfl
    | h =>
      have hfil : (s ++ ['h']).filter (fun c => c ≠ 'h') = s :=
        filter_unit_append s 'h' (fun c hc heq => hh (heq ▸ hc))
      simp only [parse_timeframe, TFUnit.char]
      rw [if_neg (ne_true_of_eq_false (contains_unit_append_other s 'h' 'm' hm (by decide))),
        if_pos (contains_unit_append_self s 'h'), hfil, hint]
      rfl
    | d =>
      have hfil : (s ++ ['d']).filter (fun c => c ≠ 'd') = s :=
        filter_unit_append s 'd' (fun c hc heq => hd (heq ▸ hc))
      simp only [parse_timeframe, TFUnit.char]
      rw [if_neg (ne_true_of_eq_false (contains_unit_append_other s 'd' 'm' hm (by decide))),
        if_neg (ne_true_of_eq_false (contains_unit_append_other s 'd' 'h' hh (by decide))),
        if_pos (contains_unit_append_self s 'd'), hfil, hint]
      rfl
    | w =>
      have hfil : (s ++ ['w']).filter (fun c => c ≠ 'w') = s :=
        filter_unit_append s 'w' (fun c hc heq => hw (heq ▸ hc))
      simp only [parse_timeframe, TFUnit.char]
      rw [if_neg (ne_true_of_eq_false (contains_unit_append_other s 'w' 'm' hm (by decide))),
        if_neg (ne_true_of_eq_false (contains_unit_append_other s 'w' 'h' hh (by decide))),
        if_neg (ne_true_of_eq_false (contains_unit_append_other s 'w' 'd' hd (by decide))),
        if_pos (contains_unit_append_self s 'w'), hfil, hint]
      rfl
  refine ⟨hparse, ?_⟩
  rw [tf_gate, hparse]
  have h1d : parse_timeframe ['1', 'd'] = some 86400 := by decide
  rw [h1d]
  simp only [Option.map_some', Option.getD_some]
  apply congrArg
  rw [← decide_not]
  exact decide_eq_decide.mpr not_le

/-- Witness for C3: a 1-hour label passes the filter, a 1-day label is
skipped. -/
theorem parse_timeframe_wellformed_witness :
    tf_gate (['1'] ++ [TFUnit.h.char]) = some true ∧
    tf_gate (['1'] ++ [TFUnit.d.char]) = some false := by
  constructor
  · rw [(parse_timeframe_wellformed ['1'] TFUnit.h (by decide) (by decide)).2]
    decide
  · rw [(parse_timeframe_wellformed ['1'] TFUnit.d (by decide) (by decide)).2]
    decide

/-- C4 (amended): an exception raised inside the per-file `try` block
(loading or analyzing one series) is caught: that series is skipped and the
sweep's collected results equal those of the same run without the failing
series.  (A `ValueError` from the timeframe token of a file name, by
contrast, is raised outside the `try` and aborts the sweep — see the
counterexample.) -/
theorem sweep_skips_failing_series
    (xs ys : List (List Char × Except (List Char) (List SummaryRecord)))
    (stem err : List Char)
    (h3 : ¬(pySplit '_' stem).length < 3)
    (hparse : parse_timeframe ((pySplit '_' stem).getLastD []) ≠ none) :
    analyze_all_data (xs ++ (stem, Except.error err) :: ys) =
      analyze_all_data (xs ++ ys) := by
  have key : ∀ (zs : List (List Char × Except (List Char) (List SummaryRecord)))
      (acc : List SummaryRecord),
      sweep_go ((stem, Except.error err) :: zs) acc = sweep_go zs acc := by
    intro zs acc
    obtain ⟨v, hv⟩ := Option.ne_none_iff_exists'.mp hparse
    have hgate : tf_gate ((pySplit '_' stem).getLastD []) =
        some (!decide (v ≥ (parse_timeframe ['1', 'd']).getD 0)) := by
      rw [tf_gate, hv]
      rfl
    simp only [sweep_go]
    rw [if_neg h3, hgate]
    cases hb : (!decide (v ≥ (parse_timeframe ['1', 'd']).getD 0)) <;> rfl
  suffices hsuff : ∀ (zs : List (List Char × Except (List Char) (List SummaryRecord)))
      (acc : List SummaryRecord),
      sweep_go (zs ++ (stem, Except.error err) :: ys) acc = sweep_go (zs ++ ys) acc by
    exact hsuff xs []
  intro zs
  induction zs with
  | nil => intro acc; exact key ys acc
  | cons f zs ih =>
    intro acc
    rcases f with ⟨fstem, fres⟩
    simp only [List.cons_append, sweep_go]
    by_cases hf : (pySplit '_' fstem).length < 3
    · simp only [if_pos hf]
      exact ih acc
    · simp only [if_neg hf]
      cases hg : tf_gate ((pySplit '_' fstem).getLastD []) with
      | none => rfl
      | some b =>
        cases b with
        | false => exact ih acc
        | true =>
          cases fres with
          | ok rs => exact ih (acc ++ rs)
          | error e => exact ih acc

/-- Witness for C4 (amended): a failing middle series between two healthy
ones is skipped and changes nothing. -/
theorem sweep_skips_failing_series_witness :
    analyze_all_data ([(['a', '_', 'b', '_', '1', 'h'], Except.ok [])] ++
        (['a', '_', 'c', '_', '1', 'h'], Except.error ['b', 'o', 'o', 'm']) ::
        [(['a', '_', 'd', '_', '5', 'm'], Except.ok [])]) =
      analyze_all_data ([(['a', '_', 'b', '_', '1', 'h'], Except.ok [])] ++
        [(['a', '_', 'd', '_', '5', 'm'], Except.ok [])]) :=
  sweep_skips_failing_series _ _ ['a', '_', 'c', '_', '1', 'h'] ['b', 'o', 'o', 'm']
    (by decide) (by decide)

/-- Counterexample for C4 as stated: a file whose timeframe token contains a
unit character but no parseable magnitude ("zm") raises `ValueError` outside
the `try` block, aborting the entire sweep instead of being logged and
skipped — the healthy series' results are lost. -/
theorem sweep_abort_cex :
    analyze_all_data [(['a', '_', 'b', '_', '1', 'h'],
        Except.ok [(⟨['b'], ['1', 'h'], MAType.SMA, 5,
          ⟨1, 100, 1, 0, some 1, some 1, none⟩⟩ : SummaryRecord)]),
      (['a', '_', 'c', '_', 'z', 'm'], Except.ok [])] = Except.error () ∧
    analyze_all_data [(['a', '_', 'b', '_', '1', 'h'],
        Except.ok [(⟨['b'], ['1', 'h'], MAType.SMA, 5,
          ⟨1, 100, 1, 0, some 1, some 1, none⟩⟩ : SummaryRecord)])] =
      Except.ok [(⟨['b'], ['1', 'h'], MAType.SMA, 5,
        ⟨1, 100, 1, 0, some 1, some 1, none⟩⟩ : SummaryRecord)] :=
  ⟨rfl, rfl⟩

lemma comboRecord_fields {cfg : AnalysisConfig} {sym tf : List Char}
    {candles : List Candle} {p : ℕ} {ty : MAType} {r : SummaryRecord}
    (h : comboRecord cfg sym tf candles p ty = some r) :
    r.ma_type = ty ∧ r.period = p := by
  simp only [comboRecord] at h
  split_ifs at h with h1 h2
  rw [Option.some_inj] at h
  constructor <;> simp [← h]

lemma comboRecord_none_of_lt {cfg : AnalysisConfig} {sym tf : List Char}
    {candles : List Candle} {p : ℕ} {ty : MAType}
    (h : (analyze_events cfg (dropna (candles.zip (compute_ma_col
        (candles.map (fun c => c.close)) p ty)))).length <
      cfg.min_events_for_significance) :
    comboRecord cfg sym tf candles p ty = none := by
  simp only [comboRecord]
  by_cases h1 : (dropna (candles.zip (compute_ma_col
      (candles.map (fun c => c.close)) p ty))).length = 0
  · rw [if_pos h1]
  · rw [if_neg h1, if_pos h]

lemma comboRecord_some_of {cfg : AnalysisConfig} {sym tf : List Char}
    {candles : List Candle} {p : ℕ} {ty : MAType}
    (hdf : dropna (candles.zip (compute_ma_col
      (candles.map (fun c => c.close)) p ty)) ≠ [])
    (hev : cfg.min_events_for_significance ≤ (analyze_events cfg
      (dropna (candles.zip (compute_ma_col
        (candles.map (fun c => c.close)) p ty)))).length) :
    comboRecord cfg sym tf candles p ty =
      some ⟨sym, tf, ty, p, calculate_metrics (analyze_events cfg
        (dropna (candles.zip (compute_ma_col
          (candles.map (fun c => c.close)) p ty))))⟩ := by
  simp only [comboRecord]
  rw [if_neg (fun h0 => hdf (List.length_eq_zero.mp h0)), if_neg (not_lt.mpr hev)]

lemma mem_analyze_file {cfg : AnalysisConfig} {sym tf : List Char}
    {candles : List Candle} {r : SummaryRecord}
    (h : r ∈ analyze_file cfg sym tf candles) :
    ∃ p, p ∈ List.range' cfg.ma_period_min (cfg.ma_period_max + 1 - cfg.ma_period_min) ∧
      ∃ ty ∈ cfg.ma_types, comboRecord cfg sym tf candles p ty = some r := by
  unfold analyze_file at h
  by_cases hc : candles.length = 0
  · rw [if_pos hc] at h
    simp at h
  · rw [if_neg hc] at h
    rcases List.mem_flatMap.mp h with ⟨p, hp, hmem⟩
    rcases List.mem_filterMap.mp hmem with ⟨ty, hty, hcr⟩
    exact ⟨p, hp, ty, hty, hcr⟩

lemma sum_map_single {l : List ℕ} {f : ℕ → ℕ} {a : ℕ} (h1 : l.count a = 1)
    (h0 : ∀ b ∈ l, b ≠ a → f b = 0) : (l.map f).sum = f a := by
  induction l with
  | nil => simp at h1
  | cons x xs ih =>
    by_cases hx : x = a
    · subst hx
      rw [List.count_cons_self] at h1
      have hc0 : xs.count x = 0 := by omega
      have hnx : x ∉ xs := List.count_eq_zero.mp hc0
      have hsum : (xs.map f).sum = 0 := by
        apply List.sum_eq_zero
        intro y hy
        rcases List.mem_map.mp hy with ⟨b, hb, rfl⟩
        exact h0 b (List.mem_cons_of_mem _ hb) (fun hba => hnx (hba ▸ hb))
      rw [List.map_cons, List.sum_cons, hsum]
      rfl
    · have h1x : xs.count a = 1 := by
        rw [List.count_cons] at h1
        simpa [hx] using h1
      rw [List.map_cons, List.sum_cons, h0 x (List.mem_cons_self x xs) hx, zero_add]
      exact ih h1x (fun b hb hba => h0 b (List.mem_cons_of_mem _ hb) hba)

lemma countP_filterMap_single {α β : Type} [DecidableEq α] {l : List α}
    {f : α → Option β} {p : β → Bool} {a : α} {b : β}
    (hnd : l.Nodup) (hmem : a ∈ l) (hfa : f a = some b) (hpb : p b = true)
    (hother : ∀ a' ∈ l, a' ≠ a → ∀ b', f a' = some b' → p b' = false) :
    (l.filterMap f).countP p = 1 := by
  induction l with
  | nil => simp at hmem
  | cons x xs ih =>
    rcases List.nodup_cons.mp hnd with ⟨hxnot, hndxs⟩
    by_cases hx : x = a
    · subst hx
      have hrest : (xs.filterMap f).countP p = 0 := by
        rw [List.countP_eq_zero]
        intro b' hb' hpb'
        rcases List.mem_filterMap.mp hb' with ⟨a', ha', hfa'⟩
        have hne : a' ≠ x := fun h => hxnot (h ▸ ha')
        rw [hother a' (List.mem_cons_of_mem _ ha') hne b' hfa'] at hpb'
        exact Bool.false_ne_true hpb'
      rw [List.filterMap_cons_some hfa, List.countP_cons, hrest, hpb]
      rfl
    · have hmem' : a ∈ xs := by
        rcases List.mem_cons.mp hmem with h | h
        · exact absurd h.symm hx
        · exact h
      have hother' : ∀ a' ∈ xs, a' ≠ a → ∀ b', f a' = some b' → p b' = false :=
        fun a' ha' => hother a' (List.mem_cons_of_mem _ ha')
      cases hfx : f x with
      | none =>
        rw [List.filterMap_cons_none hfx]
        exact ih hndxs hmem' hother'
      | some bx =>
        have hpbx : p bx = false := hother x (List.mem_cons_self x xs) hx bx hfx
        rw [List.filterMap_cons_some hfx, List.countP_cons, hpbx,
          ih hndxs hmem' hother']
        rfl

/-- C9 (amended): a (period, MA-type) combination whose event list has fewer
than `min_events_for_significance` events contributes no summary record; a
combination with at least that many events contributes exactly one record,
provided the series is nonempty after dropping undefined-MA rows (when
nothing remains — empty input, or period longer than the series — the
combination is skipped before the event gate and yields no record even when
the threshold is 0). -/
theorem analyze_file_significance_gate (cfg : AnalysisConfig) (sym tf : List Char)
    (candles : List Candle) (period : ℕ) (ty : MAType)
    (hmin : cfg.ma_period_min ≤ period) (hmax : period ≤ cfg.ma_period_max)
    (hty : ty ∈ cfg.ma_types) (hnd : cfg.ma_types.Nodup) :
    ((analyze_events cfg (dropna (candles.zip (compute_ma_col
        (candles.map (fun c => c.close)) period ty)))).length <
        cfg.min_events_for_significance →
      (analyze_file cfg sym tf candles).countP
        (fun r => decide (r.ma_type = ty ∧ r.period = period)) = 0) ∧
    (cfg.min_events_for_significance ≤
        (analyze_events cfg (dropna (candles.zip (compute_ma_col
          (candles.map (fun c => c.close)) period ty)))).length →
      dropna (candles.zip (compute_ma_col
        (candles.map (fun c => c.close)) period ty)) ≠ [] →
      (analyze_file cfg sym tf candles).countP
        (fun r => decide (r.ma_type = ty ∧ r.period = period)) = 1) := by
  constructor
  · intro hlt
    rw [List.countP_eq_zero]
    intro r hr hpred
    rw [decide_eq_true_eq] at hpred
    rcases mem_analyze_file hr with ⟨p, _, ty2, _, hcr⟩
    obtain ⟨histype, hisper⟩ := comboRecord_fields hcr
    have hty2 : ty2 = ty := histype.symm.trans hpred.1
    have hp2 : p = period := hisper.symm.trans hpred.2
    subst hty2
    subst hp2
    rw [comboRecord_none_of_lt hlt] at hcr
    exact Option.noConfusion hcr
  · intro hge hdf
    have hclen : candles.length ≠ 0 := by
      intro h0
      apply hdf
      have hnil : candles = [] := List.length_eq_zero.mp h0
      subst hnil
      rfl
    unfold analyze_file
    rw [if_neg hclen, List.countP_flatMap]
    have hcount1 : (List.range' cfg.ma_period_min
        (cfg.ma_period_max + 1 - cfg.ma_period_min)).count period = 1 :=
      List.count_eq_one_of_mem (List.nodup_range' _ _)
        (List.mem_range'_1.mpr ⟨hmin, by omega⟩)
    have hzero : ∀ b ∈ List.range' cfg.ma_period_min
        (cfg.ma_period_max + 1 - cfg.ma_period_min), b ≠ period →
        (List.countP (fun r => decide (r.ma_type = ty ∧ r.period = period)) ∘
          (fun p => cfg.ma_types.filterMap (comboRecord cfg sym tf candles p))) b = 0 := by
      intro b _ hbne
      simp only [Function.comp]
      rw [List.countP_eq_zero]
      intro r hr hpred
      rw [decide_eq_true_eq] at hpred
      rcases List.mem_filterMap.mp hr with ⟨ty2, _, hcr⟩
      obtain ⟨_, hisper⟩ := comboRecord_fields hcr
      exact hbne (hisper.symm.trans hpred.2)
    rw [sum_map_single hcount1 hzero]
    simp only [Function.comp]
    apply countP_filterMap_single hnd hty (comboRecord_some_of hdf hge)
    · simp
    · intro ty2 _ hne b' hcr
      obtain ⟨histype, _⟩ := comboRecord_fields hcr
      apply decide_eq_false
      intro hpred
      exact hne (histype.symm.trans hpred.1)

/-- Witness for C9 (amended): with an empty input and threshold 5, the
(SMA, period 1) combination has 0 < 5 events and no record appears. -/
theorem analyze_file_significance_gate_witness :
    (analyze_file ⟨1, 1, [MAType.SMA], 0, 0, 0, 0, none, 5⟩ [] [] []).countP
      (fun r => decide (r.ma_type = MAType.SMA ∧ r.period = 1)) = 0 :=
  (analyze_file_significance_gate ⟨1, 1, [MAType.SMA], 0, 0, 0, 0, none, 5⟩
    [] [] [] 1 MAType.SMA (by decide) (by decide) (by decide) (by decide)).1 (by decide)

/-- Counterexample for C9 as stated: with `min_events_for_significance = 0`
and a one-candle series, the (SMA, period 2) combination has an MA column
that is entirely undefined, so its (empty) event list meets the threshold
(0 ≥ 0) yet `analyze_file` produces no record for it. -/
theorem analyze_file_significance_gate_cex :
    (⟨2, 2, [MAType.SMA], 0, 0, 0, 0, none, 0⟩ :
        AnalysisConfig).min_events_for_significance ≤
      (analyze_events ⟨2, 2, [MAType.SMA], 0, 0, 0, 0, none, 0⟩
        (dropna ([(⟨1, 1, 1, 1⟩ : Candle)].zip (compute_ma_col
          ([(⟨1, 1, 1, 1⟩ : Candle)].map (fun c => c.close)) 2 MAType.SMA)))).length ∧
    (analyze_file ⟨2, 2, [MAType.SMA], 0, 0, 0, 0, none, 0⟩ [] []
        [(⟨1, 1, 1, 1⟩ : Candle)]).countP
      (fun r => decide (r.ma_type = MAType.SMA ∧ r.period = 2)) = 0 := by
  constructor
  · decide
  · decide

end MAStrategy